import Mathlib

/-!
Verification development for `snntoolbox/model_libs/keras_input_lib.py`.

The Python module is shallowly embedded below: models are lists of layer
descriptions, the `extract` loop becomes a structurally recursive function
over the layer list, raised exceptions become `Except` errors, and the
external collaborators (`absorb_bn`, `bn_layers`, the Keras/Theano runtime)
are either parameters of the embedded functions or, where the claims need a
concrete body that is absent from the sources, definitions modelled from the
specification and marked as such.
-/

namespace KerasInput

/-- A tensor-shape dimension: `none` embeds the Python `None` batch entry. -/
abbrev Dim := Option Nat

/-- The character Python prints for a decimal digit `d < 10`. -/
def digitChar (d : Nat) : Char := Char.ofNat (48 + d)

/-- Fuel-driven decimal digit list, embedding Python `str` on integers.
The first argument is fuel; `decChars (n+1) n` fully renders `n`. -/
def decChars : Nat → Nat → List Char
  | 0, _ => []
  | fuel + 1, n =>
    if n < 10 then [digitChar n]
    else decChars fuel (n / 10) ++ [digitChar (n % 10)]

/-- Decimal digit list of `n` (fuel instantiated). -/
def decCharsN (n : Nat) : List Char := decChars (n + 1) n

/-- Embedding of Python `str(n)` for a natural number. -/
def decRepr (n : Nat) : String := ⟨decCharsN n⟩

/-- Embedding of `'{}'.format(d)` on a shape entry. -/
def fmtDim : Dim → String
  | none => "None"
  | some n => decRepr n

/-- Embedding of `num_str = str(layer_num) if layer_num > 9 else '0' + str(layer_num)`. -/
def numStr (n : Nat) : String := if 9 < n then decRepr n else "0" ++ decRepr n

/-- The ways the extraction loop can raise: an out-of-range tuple index while
formatting the shape suffix, or the `NotImplementedError` guarding batch-norm
absorption (carrying the offending layer type). -/
inductive ExtErr where
  | indexErr : ExtErr
  | notImpl : String → ExtErr
deriving DecidableEq, Repr

/-- Embedding of the shape-suffix computation in `extract`: rank-2 shapes use
entry 1, every other rank reads entries 1, 2 and 3 unconditionally (raising an
index error when the tuple is too short, exactly as Python indexing would). -/
def shapeString (os : List Dim) : Except ExtErr String :=
  if os.length = 2 then
    match os.get? 1 with
    | some d => .ok ("_" ++ fmtDim d)
    | none => .error .indexErr
  else
    match os.get? 1, os.get? 2, os.get? 3 with
    | some d1, some d2, some d3 =>
        .ok ("_" ++ fmtDim d1 ++ "x" ++ fmtDim d2 ++ "x" ++ fmtDim d3)
    | _, _, _ => .error .indexErr

/-- A Keras layer as `extract` consumes it: the class name, the shape
attributes, the `get_weights()` list, and the scalar attributes read for
convolution, pooling and batch-normalization layers. `Arr` abstracts the
numpy arrays stored in `get_weights()`. -/
structure KLayer (Arr : Type) where
  cls : String
  output_shape : List Dim
  input_shape : List Dim := []
  weights : List Arr := []
  epsilon : ℚ := 0
  nb_filter : Nat := 0
  nb_col : Nat := 0
  nb_row : Nat := 0
  border_mode : String := ""
  pool_size : List Nat := []
  strides : List Nat := []
deriving DecidableEq, Inhabited

/-- One entry of the `layers` list `extract` builds: the mandatory keys plus
the conditionally added ones (absent keys are `none`). `get_activ` closures
are represented by the layer index they capture. -/
structure LayerRecord (Arr : Type) where
  layer_num : Nat
  layer_type : String
  output_shape : List Dim
  label : String
  weights : Option (Arr × Arr) := none
  input_shape : Option (List Dim) := none
  nb_filter : Option Nat := none
  nb_col : Option Nat := none
  nb_row : Option Nat := none
  border_mode : Option String := none
  pool_size : Option (List Nat) := none
  strides : Option (List Nat) := none
  get_activ : Option Nat := none
deriving DecidableEq, Inhabited

/-- The Parsed Network Description returned by `extract`. -/
structure PND (Arr : Type) where
  input_shape : List Dim
  layers : List (LayerRecord Arr)
  labels : List String
  layer_idx_map : List Nat
deriving DecidableEq, Inhabited

/-- The input model: its `input_shape` and ordered layer list. -/
structure KModel (Arr : Type) where
  input_shape : List Dim
  layers : List (KLayer Arr)
deriving DecidableEq, Inhabited

/-- Signature of `absorb_bn(W, b, gamma, beta, mean, std, epsilon)`, the
batch-norm folding routine imported from `snntoolbox.model_libs.common`. -/
abbrev AbsorbFn (Arr : Type) := Arr → Arr → Arr → Arr → Arr → Arr → ℚ → Arr × Arr

/-- The record built for one layer once no exception fires: `ss` is the
already-computed shape suffix.  Field by field this mirrors the
`attributes` dictionary updates in the loop body of `extract`. -/
def mkRecord [Inhabited Arr] (ab : AbsorbFn Arr) (i : Nat) (layer : KLayer Arr)
    (next : Option (KLayer Arr)) (ss : String) : LayerRecord Arr :=
  let isPool := layer.cls = "MaxPooling2D" ∨ layer.cls = "AveragePooling2D"
  { layer_num := i
    layer_type := layer.cls
    output_shape := layer.output_shape
    label := numStr i ++ layer.cls ++ ss
    weights :=
      if layer.cls = "Dense" ∨ layer.cls = "Convolution2D" then
        let w0 := layer.weights.getD 0 default
        let b0 := layer.weights.getD 1 default
        match next with
        | some nl =>
          if nl.cls = "BatchNormalization" then
            some (ab w0 b0 (nl.weights.getD 0 default) (nl.weights.getD 1 default)
                  (nl.weights.getD 2 default) (nl.weights.getD 3 default) nl.epsilon)
          else some (w0, b0)
        | none => some (w0, b0)
      else none
    input_shape :=
      if layer.cls = "Convolution2D" ∨ isPool then some layer.input_shape else none
    nb_filter := if layer.cls = "Convolution2D" then some layer.nb_filter else none
    nb_col := if layer.cls = "Convolution2D" then some layer.nb_col else none
    nb_row := if layer.cls = "Convolution2D" then some layer.nb_row else none
    border_mode :=
      if layer.cls = "Convolution2D" ∨ isPool then some layer.border_mode else none
    pool_size := if isPool then some layer.pool_size else none
    strides := if isPool then some layer.strides else none
    get_activ :=
      if layer.cls = "Activation" ∨ isPool then some i else none }

/-- One iteration of the `extract` loop for layer `i`: first the label
(shape suffix may raise an index error), then the batch-norm placement guard
(`NotImplementedError`), then the record. -/
def extractLayer [Inhabited Arr] (bn : List String) (ab : AbsorbFn Arr)
    (i : Nat) (layer : KLayer Arr) (next : Option (KLayer Arr)) :
    Except ExtErr (LayerRecord Arr) :=
  match shapeString layer.output_shape with
  | .error e => .error e
  | .ok ss =>
    if next.map (·.cls) = some "BatchNormalization" ∧ layer.cls ∉ bn then
      .error (.notImpl layer.cls)
    else
      .ok (mkRecord ab i layer next ss)

/-- The `extract` loop over the remaining layers, `i` being the index of the
head of the remaining list; the next layer peeked at is the head of the
tail, exactly as `model.layers[layer_num + 1]`. -/
def extractGo [Inhabited Arr] (bn : List String) (ab : AbsorbFn Arr) :
    Nat → List (KLayer Arr) → Except ExtErr (List (LayerRecord Arr))
  | _, [] => .ok []
  | i, layer :: rest =>
    match extractLayer bn ab i layer rest.head? with
    | .error e => .error e
    | .ok r =>
      match extractGo bn ab (i + 1) rest with
      | .error e => .error e
      | .ok rs => .ok (r :: rs)

/-- Embedding of `extract`: run the loop and assemble the result dictionary.
`labels` collects each record's label and `layer_idx_map` each record's
`layer_num`, as the two `append` calls in the loop do. -/
def extract [Inhabited Arr] (bn : List String) (ab : AbsorbFn Arr)
    (m : KModel Arr) : Except ExtErr (PND Arr) :=
  match extractGo bn ab 0 m.layers with
  | .error e => .error e
  | .ok rs =>
    .ok { input_shape := m.input_shape, layers := rs,
          labels := rs.map (·.label), layer_idx_map := rs.map (·.layer_num) }

/-- Modelled from the spec: `bn_layers` is imported from `snntoolbox.config`,
which is not among the sources; §3/§4.1 make the absorption allow-list the
affine layer kinds, i.e. fully-connected and 2-D convolution layers. -/
def bn_layers : List String := ["Dense", "Convolution2D"]

/-- Modelled from the spec: `absorb_bn` lives in
`snntoolbox.model_libs.common`, which is not among the sources; §4.1 gives
only its contract.  Per the call-site comment the seven arguments are
`W, b, gamma, beta, mean, std, epsilon`, and the inference-mode
batch-normalization transform is `y ↦ γ (y − μ) / (σ + ε) + β` with `σ` the
running standard deviation, so the folded scalar parameters are
`W' = γ W / (σ + ε)` and `b' = γ (b − μ) / (σ + ε) + β`. -/
def absorbScalar : AbsorbFn ℚ := fun w b g bt mu sd e =>
  (g * w / (sd + e), g * (b - mu) / (sd + e) + bt)

/-- Modelled from the spec: the per-channel inference-mode
batch-normalization transform applied to one output value `y` of channel
`j`, written with the running standard deviation `s` as the stored
parameter. -/
def batchnormApply {m : Nat} (g bt mu s : Fin m → ℚ) (e : ℚ) (y : Fin m → ℚ) :
    Fin m → ℚ := fun j => g j * (y j - mu j) / (s j + e) + bt j

/-- The affine transform of a fully-connected layer: row `j` of the weight
matrix dotted with the input plus the bias. -/
def affineApply {m n : Nat} (W : Fin m → Fin n → ℚ) (b : Fin m → ℚ)
    (x : Fin n → ℚ) : Fin m → ℚ := fun j => (∑ i, W j i * x i) + b j

/-- Modelled from the spec: `absorb_bn` at the vector level, one channel per
output row, folding the batch-normalization parameters into the affine
layer. -/
def absorb_bn_vec {m n : Nat} (W : Fin m → Fin n → ℚ) (b g bt mu s : Fin m → ℚ)
    (e : ℚ) : (Fin m → Fin n → ℚ) × (Fin m → ℚ) :=
  (fun j i => g j * W j i / (s j + e),
   fun j => g j * (b j - mu j) / (s j + e) + bt j)

/-- Embedding of `set_layer_params`: `model.layers[i].set_weights(params)`
replaces the stored weight list of layer `i`. -/
def setWeightsAt (params : List Arr) : List (KLayer Arr) → Nat → List (KLayer Arr)
  | [], _ => []
  | l :: rest, 0 => { l with weights := params } :: rest
  | l :: rest, n + 1 => l :: setWeightsAt params rest n

/-- Embedding of `set_layer_params(model, params, i)`. -/
def set_layer_params (m : KModel Arr) (params : List Arr) (i : Nat) : KModel Arr :=
  { m with layers := setWeightsAt params m.layers i }

/-- Write back into each layer exactly the weights its extracted record
reports, via `set_layer_params` (records without a `weights` key are
skipped). -/
def writeBack (m : KModel Arr) (p : PND Arr) : KModel Arr :=
  p.layers.foldl
    (fun acc r =>
      match r.weights with
      | some (w, b) => set_layer_params acc [w, b] r.layer_num
      | none => acc)
    m

/-- The operations `load_ann` delegates to the Keras/Theano runtime and to
the user script, abstracted as parameters; fallible ones return `Except`
with a propagated error message. `compile` records the loss, optimizer and
metric arguments in the model handle. -/
structure LoaderEnv (Model : Type) where
  readFile : String → Except String String
  model_from_json : String → Except String Model
  load_weights : Model → String → Except String Model
  compile : Model → String → String → List String → Model
  build_network : Except String Model

/-- The configuration entries `load_ann` reads from `snntoolbox.config.settings`. -/
structure Config where
  path : String
  dataset : String

/-- Embedding of `os.path.join(path, name)` for a relative file name. -/
def pathJoin (a b : String) : String := a ++ "/" ++ b

/-- The dictionary `load_ann` returns: the live model handle and its bound
`evaluate` method, represented by the model the method is bound to. -/
structure LoadedAnn (Model : Type) where
  model : Model
  val_fn : Model
deriving DecidableEq

/-- Embedding of `model_from_py`: import the script and call its
`build_network` entry point. -/
def model_from_py (env : LoaderEnv Model) : Except String Model :=
  env.build_network

/-- Embedding of `load_ann`: pick the model source by the configured dataset
(`'caltech101'` selects the script), then load the `.h5` weights, recompile
with the fixed loss and optimizer, and return the handle plus its `evaluate`
method. -/
def load_ann (env : LoaderEnv Model) (cfg : Config) (filename : String)
    (path : Option String := none) : Except String (LoadedAnn Model) :=
  let p := path.getD cfg.path
  let m0 : Except String Model :=
    if cfg.dataset = "caltech101" then model_from_py env
    else
      match env.readFile (pathJoin p (filename ++ ".json")) with
      | .error e => .error e
      | .ok txt => env.model_from_json txt
  match m0 with
  | .error e => .error e
  | .ok mdl =>
    match env.load_weights mdl (pathJoin p (filename ++ ".h5")) with
    | .error e => .error e
    | .ok mdl2 =>
      let mdl3 := env.compile mdl2 "categorical_crossentropy" "sgd" ["accuracy"]
      .ok { model := mdl3, val_fn := mdl3 }

/-- Embedding of `evaluate(val_fn, X_test, Y_test)`. -/
def evaluate (val_fn : X → Y → M) (X_test : X) (Y_test : Y) : M :=
  val_fn X_test Y_test

/-- The spec §8 scenario model: `[Dense(output_shape=(None,128)), BatchNorm,
Activation, Dense(output_shape=(None,10))]`, with concrete rational weights
and batch-norm parameters `γ=2, β=0, μ=0, σ=0, ε=1`. -/
def mC1 : KModel ℚ :=
  { input_shape := [none, some 128]
    layers :=
      [ { cls := "Dense", output_shape := [none, some 128], weights := [1, 0] },
        { cls := "BatchNormalization", output_shape := [none, some 128],
          weights := [2, 0, 0, 0], epsilon := 1 },
        { cls := "Activation", output_shape := [none, some 128] },
        { cls := "Dense", output_shape := [none, some 10], weights := [1, 0] } ] }

/-- The Parsed Network Description the embedded `extract` yields on the
scenario model. -/
def pC1 : PND ℚ := (extract bn_layers absorbScalar mC1).toOption.getD default

/-- The model the round trip produces from the scenario model. -/
def mC1back : KModel ℚ := writeBack mC1 pC1

/-- The Parsed Network Description of the second extraction in the round
trip. -/
def pC1back : PND ℚ := (extract bn_layers absorbScalar mC1back).toOption.getD default

/-- A single 2-D convolution layer with `output_shape=(None,16,8,8)`, for the
label-suffix scenario. -/
def mConv : KModel ℚ :=
  { input_shape := [none, some 1, some 8, some 8]
    layers :=
      [ { cls := "Convolution2D", output_shape := [none, some 16, some 8, some 8],
          input_shape := [none, some 1, some 8, some 8], weights := [1, 0],
          nb_filter := 16, nb_col := 3, nb_row := 3, border_mode := "same" } ] }

/-- The Parsed Network Description of the convolution scenario. -/
def pConv : PND ℚ := (extract bn_layers absorbScalar mConv).toOption.getD default

/-- An `Activation` layer immediately followed by batch normalization:
`Activation` is not on the absorption allow-list. -/
def mBadBN : KModel ℚ :=
  { input_shape := [none, some 4]
    layers :=
      [ { cls := "Activation", output_shape := [none, some 4] },
        { cls := "BatchNormalization", output_shape := [none, some 4],
          weights := [1, 0, 0, 0], epsilon := 1 } ] }

/-- A single layer with a rank-3 output shape, for the index-error claim. -/
def mRank3 : KModel ℚ :=
  { input_shape := [none, some 4, some 4]
    layers := [ { cls := "Activation", output_shape := [none, some 4, some 4] } ] }

/-- A two-layer model with no batch normalization, for the round-trip
witness. -/
def mPlain : KModel ℚ :=
  { input_shape := [none, some 3]
    layers :=
      [ { cls := "Dense", output_shape := [none, some 3], weights := [5, 7] },
        { cls := "Activation", output_shape := [none, some 3] } ] }

/-- The Parsed Network Description of the plain model. -/
def pPlain : PND ℚ := (extract bn_layers absorbScalar mPlain).toOption.getD default

/-- Numeric value of a decimal digit character. -/
def digitVal (c : Char) : Nat := c.toNat - 48

/-- The number a list of decimal digit characters denotes. -/
def valOf (l : List Char) : Nat := l.foldl (fun a c => 10 * a + digitVal c) 0

/-- The character list of `numStr n`. -/
def numChars (n : Nat) : List Char := if 9 < n then decCharsN n else '0' :: decCharsN n

/-- The head of the character list, if any, is not a decimal digit. -/
def headNotDigit (l : List Char) : Prop :=
  ∀ c, l.head? = some c → c.isDigit = false

instance {ε α : Type} [DecidableEq ε] [DecidableEq α] : DecidableEq (Except ε α) :=
  fun a b =>
    match a, b with
    | .error e, .error f =>
      if h : e = f then .isTrue (by rw [h]) else .isFalse (fun c => h (Except.error.inj c))
    | .ok x, .ok y =>
      if h : x = y then .isTrue (by rw [h]) else .isFalse (fun c => h (Except.ok.inj c))
    | .error _, .ok _ => .isFalse (fun c => Except.noConfusion c)
    | .ok _, .error _ => .isFalse (fun c => Except.noConfusion c)

/-- A concrete all-succeeding loader runtime over `Nat` model handles, for
witnesses: `compile` multiplies by 100 and `load_weights` adds 10, so the
two steps are visible in the result. -/
def envOkNat : LoaderEnv Nat :=
  { readFile := fun _ => .ok "arch"
    model_from_json := fun _ => .ok 1
    load_weights := fun mdl _ => .ok (mdl + 10)
    compile := fun mdl _ _ _ => mdl * 100
    build_network := .ok 7 }

/-- A configuration selecting the on-disk source. -/
def cfgDisk : Config := { path := "p", dataset := "mnist" }

/-- A configuration selecting the script source. -/
def cfgScript : Config := { path := "p", dataset := "caltech101" }

theorem decChars_fuel : ∀ (f g n : Nat), n < f → n < g → decChars f n = decChars g n := by
  intro f
  induction f with
  | zero => intro g n h; omega
  | succ f ih =>
    intro g n hf hg
    cases g with
    | zero => omega
    | succ g =>
      unfold decChars
      by_cases h10 : n < 10
      · simp [h10]
      · simp only [h10, if_false]
        rw [ih g (n / 10) (by omega) (by omega)]

theorem decCharsN_eq (n : Nat) :
    decCharsN n =
      if n < 10 then [digitChar n] else decCharsN (n / 10) ++ [digitChar (n % 10)] := by
  have hstep : decCharsN n =
      if n < 10 then [digitChar n] else decChars n (n / 10) ++ [digitChar (n % 10)] := rfl
  rw [hstep]
  by_cases h10 : n < 10
  · simp [h10]
  · simp only [h10, if_false]
    rw [show decChars n (n / 10) = decCharsN (n / 10) from
      decChars_fuel n (n / 10 + 1) (n / 10) (Nat.div_lt_self (by omega) (by omega))
        (Nat.lt_succ_self _)]

theorem digitVal_digitChar : ∀ d, d < 10 → digitVal (digitChar d) = d := by decide

theorem digitChar_isDigit : ∀ d, d < 10 → (digitChar d).isDigit = true := by decide

theorem valOf_append_singleton (l : List Char) (c : Char) :
    valOf (l ++ [c]) = 10 * valOf l + digitVal c := by
  simp [valOf, List.foldl_append]

theorem valOf_cons_zero (l : List Char) : valOf ('0' :: l) = valOf l := rfl

theorem valOf_decCharsN : ∀ n, valOf (decCharsN n) = n := by
  intro n
  induction n using Nat.strong_induction_on with
  | _ n ih =>
    rw [decCharsN_eq]
    by_cases h10 : n < 10
    · simp only [h10, if_true]
      simp [valOf, digitVal_digitChar n h10]
    · simp only [h10, if_false]
      rw [valOf_append_singleton, ih (n / 10) (Nat.div_lt_self (by omega) (by omega)),
        digitVal_digitChar _ (Nat.mod_lt _ (by omega))]
      omega

theorem decCharsN_digits : ∀ n, ∀ c ∈ decCharsN n, c.isDigit = true := by
  intro n
  induction n using Nat.strong_induction_on with
  | _ n ih =>
    intro c hc
    rw [decCharsN_eq] at hc
    by_cases h10 : n < 10
    · simp [h10] at hc
      subst hc
      exact digitChar_isDigit n h10
    · simp [h10] at hc
      rcases hc with hc | hc
      · exact ih (n / 10) (Nat.div_lt_self (by omega) (by omega)) c hc
      · subst hc
        exact digitChar_isDigit _ (Nat.mod_lt _ (by omega))

theorem numStr_data (n : Nat) : (numStr n).data = numChars n := by
  unfold numStr numChars
  by_cases h : 9 < n
  · simp only [h, if_true]
    rfl
  · simp only [h, if_false]
    rw [String.data_append]
    rfl

theorem valOf_numChars (n : Nat) : valOf (numChars n) = n := by
  unfold numChars
  by_cases h : 9 < n
  · simp [h, valOf_decCharsN]
  · simp only [h, if_false]
    rw [valOf_cons_zero]
    exact valOf_decCharsN n

theorem numChars_digits (n : Nat) : ∀ c ∈ numChars n, c.isDigit = true := by
  intro c hc
  unfold numChars at hc
  by_cases h : 9 < n
  · simp only [h, if_true] at hc
    exact decCharsN_digits n c hc
  · simp only [h, if_false] at hc
    rcases List.mem_cons.1 hc with hc | hc
    · subst hc
      decide
    · exact decCharsN_digits n c hc

theorem takeWhile_digits_append (l1 l2 : List Char)
    (h1 : ∀ c ∈ l1, c.isDigit = true) (h2 : headNotDigit l2) :
    (l1 ++ l2).takeWhile (fun c => c.isDigit) = l1 := by
  induction l1 with
  | nil =>
    simp only [List.nil_append]
    cases l2 with
    | nil => rfl
    | cons c t =>
      have hcd := h2 c rfl
      simp [List.takeWhile_cons, hcd]
  | cons a t ih =>
    have ha := h1 a (List.mem_cons_self a t)
    simp only [List.cons_append, List.takeWhile_cons, ha, if_true]
    rw [ih (fun c hc => h1 c (List.mem_cons_of_mem a hc))]

theorem numChars_append_inj {i j : Nat} {r1 r2 : List Char}
    (h1 : headNotDigit r1) (h2 : headNotDigit r2)
    (h : numChars i ++ r1 = numChars j ++ r2) : i = j := by
  have ht := congrArg (List.takeWhile (fun c => c.isDigit)) h
  rw [takeWhile_digits_append _ _ (numChars_digits i) h1,
      takeWhile_digits_append _ _ (numChars_digits j) h2] at ht
  have hv := congrArg valOf ht
  rwa [valOf_numChars, valOf_numChars] at hv

theorem headNotDigit_append (ci si : List Char) (hci : headNotDigit ci)
    (hsi : si.head? = some '_') : headNotDigit (ci ++ si) := by
  intro c hc
  cases ci with
  | nil =>
    simp only [List.nil_append] at hc
    rw [hsi] at hc
    cases hc
    decide
  | cons a t =>
    simp only [List.cons_append, List.head?_cons] at hc
    have hac : c = a := (Option.some.inj hc).symm
    subst hac
    exact hci c rfl

theorem label_num_inj {i j : Nat} {ci cj si sj : String}
    (hci : headNotDigit ci.data) (hcj : headNotDigit cj.data)
    (hsi : si.data.head? = some '_') (hsj : sj.data.head? = some '_')
    (h : numStr i ++ ci ++ si = numStr j ++ cj ++ sj) : i = j := by
  have hd := congrArg String.data h
  rw [String.data_append, String.data_append, String.data_append, String.data_append,
      numStr_data, numStr_data, List.append_assoc, List.append_assoc] at hd
  exact numChars_append_inj (headNotDigit_append _ _ hci hsi)
    (headNotDigit_append _ _ hcj hsj) hd

theorem extractLayer_ok_elim [Inhabited Arr] {bn : List String} {ab : AbsorbFn Arr}
    {i : Nat} {layer : KLayer Arr} {next : Option (KLayer Arr)} {r : LayerRecord Arr}
    (h : extractLayer bn ab i layer next = .ok r) :
    ∃ ss, shapeString layer.output_shape = .ok ss ∧
      ¬(next.map (·.cls) = some "BatchNormalization" ∧ layer.cls ∉ bn) ∧
      r = mkRecord ab i layer next ss := by
  unfold extractLayer at h
  cases hss : shapeString layer.output_shape with
  | error e => rw [hss] at h; cases h
  | ok ss =>
    rw [hss] at h
    dsimp only at h
    by_cases hc : next.map (·.cls) = some "BatchNormalization" ∧ layer.cls ∉ bn
    · rw [if_pos hc] at h
      cases h
    · rw [if_neg hc] at h
      exact ⟨ss, rfl, hc, (Except.ok.inj h).symm⟩

theorem shapeString_ok_head {os : List Dim} {ss : String}
    (h : shapeString os = .ok ss) : ss.data.head? = some '_' := by
  unfold shapeString at h
  by_cases hl : os.length = 2
  · rw [if_pos hl] at h
    cases hg : os.get? 1 with
    | none => rw [hg] at h; cases h
    | some d =>
      rw [hg] at h
      have hss := (Except.ok.inj h).symm
      subst hss
      rfl
  · rw [if_neg hl] at h
    cases hg1 : os.get? 1 <;> cases hg2 : os.get? 2 <;> cases hg3 : os.get? 3 <;>
        rw [hg1, hg2, hg3] at h <;> cases h <;> rfl

theorem extractGo_ok [Inhabited Arr] {bn : List String} {ab : AbsorbFn Arr} :
    ∀ (ls : List (KLayer Arr)) (i : Nat) (rs : List (LayerRecord Arr)),
      extractGo bn ab i ls = .ok rs →
      rs.length = ls.length ∧
      ∀ k, k < ls.length →
        ∃ l r, ls.get? k = some l ∧ rs.get? k = some r ∧
          extractLayer bn ab (i + k) l (ls.get? (k + 1)) = .ok r := by
  intro ls
  induction ls with
  | nil =>
    intro i rs h
    unfold extractGo at h
    injection h with h2
    subst h2
    exact ⟨rfl, fun k hk => absurd hk (by simp)⟩
  | cons layer rest ih =>
    intro i rs h
    unfold extractGo at h
    cases h1 : extractLayer bn ab i layer rest.head? with
    | error e => rw [h1] at h; cases h
    | ok r0 =>
      rw [h1] at h
      cases h2 : extractGo bn ab (i + 1) rest with
      | error e => rw [h2] at h; cases h
      | ok rs0 =>
        rw [h2] at h
        have hrs := (Except.ok.inj h).symm
        subst hrs
        obtain ⟨hlen, hpt⟩ := ih (i + 1) rs0 h2
        refine ⟨by simp [hlen], ?_⟩
        intro k hk
        cases k with
        | zero =>
          refine ⟨layer, r0, rfl, rfl, ?_⟩
          have hnext : (layer :: rest).get? (0 + 1) = rest.head? := by
            cases rest <;> rfl
          rw [hnext, Nat.add_zero]
          exact h1
        | succ k =>
          have hk2 : k < rest.length := by simpa using hk
          obtain ⟨l, r, hl, hr, hx⟩ := hpt k hk2
          refine ⟨l, r, hl, hr, ?_⟩
          have hidx : i + (k + 1) = (i + 1) + k := by omega
          rw [hidx]
          exact hx

theorem extractGo_layerNum [Inhabited Arr] {bn : List String} {ab : AbsorbFn Arr} :
    ∀ (ls : List (KLayer Arr)) (i : Nat) (rs : List (LayerRecord Arr)),
      extractGo bn ab i ls = .ok rs →
      rs.map (·.layer_num) = List.range' i ls.length := by
  intro ls
  induction ls with
  | nil =>
    intro i rs h
    unfold extractGo at h
    injection h with h2
    subst h2
    rfl
  | cons layer rest ih =>
    intro i rs h
    unfold extractGo at h
    cases h1 : extractLayer bn ab i layer rest.head? with
    | error e => rw [h1] at h; cases h
    | ok r0 =>
      rw [h1] at h
      cases h2 : extractGo bn ab (i + 1) rest with
      | error e => rw [h2] at h; cases h
      | ok rs0 =>
        rw [h2] at h
        have hrs := (Except.ok.inj h).symm
        subst hrs
        obtain ⟨ss, _, _, hr0⟩ := extractLayer_ok_elim h1
        subst hr0
        rw [List.length_cons, List.range'_succ]
        simp only [List.map_cons]
        exact congrArg _ (ih (i + 1) rs0 h2)

theorem extract_ok_parts [Inhabited Arr] {bn : List String} {ab : AbsorbFn Arr}
    {m : KModel Arr} {p : PND Arr} (h : extract bn ab m = .ok p) :
    extractGo bn ab 0 m.layers = .ok p.layers ∧
    p.input_shape = m.input_shape ∧
    p.labels = p.layers.map (·.label) ∧
    p.layer_idx_map = p.layers.map (·.layer_num) := by
  unfold extract at h
  cases hgo : extractGo bn ab 0 m.layers with
  | error e => rw [hgo] at h; cases h
  | ok rs =>
    rw [hgo] at h
    have hp := (Except.ok.inj h).symm
    subst hp
    exact ⟨rfl, rfl, rfl, rfl⟩

theorem extractLayer_violation [Inhabited Arr] {bn : List String} {ab : AbsorbFn Arr}
    {i : Nat} {layer nl : KLayer Arr} {next : Option (KLayer Arr)}
    (hnext : next = some nl) (hbn : nl.cls = "BatchNormalization") (hmem : layer.cls ∉ bn) :
    ∀ r, extractLayer bn ab i layer next ≠ .ok r := by
  intro r h
  obtain ⟨ss, _, hc, _⟩ := extractLayer_ok_elim h
  exact hc ⟨by rw [hnext]; exact congrArg some hbn, hmem⟩

theorem extractGo_violation_not_ok [Inhabited Arr] {bn : List String} {ab : AbsorbFn Arr} :
    ∀ (ls : List (KLayer Arr)) (i k : Nat) (l nl : KLayer Arr),
      ls.get? k = some l → ls.get? (k + 1) = some nl →
      nl.cls = "BatchNormalization" → l.cls ∉ bn →
      ∀ rs, extractGo bn ab i ls ≠ .ok rs := by
  intro ls
  induction ls with
  | nil => intro i k l nl hl; cases hl
  | cons a rest ih =>
    intro i k l nl hl hnl hbn hmem rs h
    unfold extractGo at h
    cases h1 : extractLayer bn ab i a rest.head? with
    | error e => rw [h1] at h; cases h
    | ok r0 =>
      rw [h1] at h
      cases h2 : extractGo bn ab (i + 1) rest with
      | error e => rw [h2] at h; cases h
      | ok rs0 =>
        cases k with
        | zero =>
          have hal : a = l := Option.some.inj hl
          subst hal
          have hh : rest.head? = some nl := by
            have : (a :: rest).get? (0 + 1) = rest.head? := by cases rest <;> rfl
            rw [← this]
            exact hnl
          exact extractLayer_violation hh hbn hmem r0 h1
        | succ k =>
          exact ih (i + 1) k l nl hl hnl hbn hmem rs0 h2

theorem extractGo_violation_notImpl [Inhabited Arr] {bn : List String} {ab : AbsorbFn Arr} :
    ∀ (ls : List (KLayer Arr)) (i k : Nat) (l nl : KLayer Arr),
      ls.get? k = some l → ls.get? (k + 1) = some nl →
      nl.cls = "BatchNormalization" → l.cls ∉ bn →
      (∀ k2 l2, k2 ≤ k → ls.get? k2 = some l2 → ∃ ss, shapeString l2.output_shape = .ok ss) →
      ∃ t, extractGo bn ab i ls = .error (.notImpl t) := by
  intro ls
  induction ls with
  | nil => intro i k l nl hl; cases hl
  | cons a rest ih =>
    intro i k l nl hl hnl hbn hmem hshape
    obtain ⟨ssa, hssa⟩ := hshape 0 a (Nat.zero_le k) rfl
    by_cases hcond :
        rest.head?.map (·.cls) = some "BatchNormalization" ∧ a.cls ∉ bn
    · refine ⟨a.cls, ?_⟩
      unfold extractGo extractLayer
      rw [hssa]
      dsimp only
      rw [if_pos hcond]
    · cases k with
      | zero =>
        exfalso
        apply hcond
        have hal : a = l := Option.some.inj hl
        subst hal
        have hh : rest.head? = some nl := by
          have heq : (a :: rest).get? (0 + 1) = rest.head? := by cases rest <;> rfl
          rw [← heq]
          exact hnl
        exact ⟨by rw [hh]; exact congrArg some hbn, hmem⟩
      | succ k =>
        obtain ⟨t, ht⟩ := ih (i + 1) k l nl hl hnl hbn hmem
          (fun k2 l2 hk2 hl2 => hshape (k2 + 1) l2 (by omega) hl2)
        refine ⟨t, ?_⟩
        unfold extractGo extractLayer
        rw [hssa]
        dsimp only
        rw [if_neg hcond, ht]

theorem shapeString_bad {os : List Dim} (h : os.length = 3 ∨ os.length < 2) :
    shapeString os = .error .indexErr := by
  match os, h with
  | [], _ => rfl
  | [a], _ => rfl
  | [a, b], h => simp at h
  | [a, b, c], _ => rfl
  | a :: b :: c :: d :: t, h => simp at h; omega

theorem extractGo_badshape_not_ok [Inhabited Arr] {bn : List String} {ab : AbsorbFn Arr} :
    ∀ (ls : List (KLayer Arr)) (i k : Nat) (l : KLayer Arr),
      ls.get? k = some l → (l.output_shape.length = 3 ∨ l.output_shape.length < 2) →
      ∀ rs, extractGo bn ab i ls ≠ .ok rs := by
  intro ls
  induction ls with
  | nil => intro i k l hl; cases hl
  | cons a rest ih =>
    intro i k l hl hbad rs h
    unfold extractGo at h
    cases h1 : extractLayer bn ab i a rest.head? with
    | error e => rw [h1] at h; cases h
    | ok r0 =>
      rw [h1] at h
      cases h2 : extractGo bn ab (i + 1) rest with
      | error e => rw [h2] at h; cases h
      | ok rs0 =>
        cases k with
        | zero =>
          have hal : a = l := Option.some.inj hl
          subst hal
          obtain ⟨ss, hss, _, _⟩ := extractLayer_ok_elim h1
          rw [shapeString_bad hbad] at hss
          cases hss
        | succ k =>
          exact ih (i + 1) k l hl hbad rs0 h2

theorem extractGo_badshape_indexErr [Inhabited Arr] {bn : List String} {ab : AbsorbFn Arr} :
    ∀ (ls : List (KLayer Arr)) (i k : Nat) (l : KLayer Arr),
      ls.get? k = some l → (l.output_shape.length = 3 ∨ l.output_shape.length < 2) →
      (∀ k2 l2, k2 < k → ls.get? k2 = some l2 →
        ∃ r, extractLayer bn ab (i + k2) l2 (ls.get? (k2 + 1)) = .ok r) →
      extractGo bn ab i ls = .error .indexErr := by
  intro ls
  induction ls with
  | nil => intro i k l hl; cases hl
  | cons a rest ih =>
    intro i k l hl hbad hearlier
    cases k with
    | zero =>
      have hal : a = l := Option.some.inj hl
      subst hal
      unfold extractGo extractLayer
      rw [shapeString_bad hbad]
    | succ k =>
      obtain ⟨r0, hr0⟩ := hearlier 0 a (Nat.succ_pos k) rfl
      have hh : (a :: rest).get? (0 + 1) = rest.head? := by cases rest <;> rfl
      rw [Nat.add_zero, hh] at hr0
      have hrec : extractGo bn ab (i + 1) rest = .error .indexErr := by
        apply ih (i + 1) k l hl hbad
        intro k2 l2 hk2 hl2
        obtain ⟨r, hr⟩ := hearlier (k2 + 1) l2 (by omega) hl2
        refine ⟨r, ?_⟩
        have hidx : (i + 1) + k2 = i + (k2 + 1) := by omega
        rw [hidx]
        exact hr
      unfold extractGo
      rw [hr0, hrec]

theorem setWeightsAt_self :
    ∀ (ls : List (KLayer Arr)) (k : Nat) (l : KLayer Arr),
      ls.get? k = some l → setWeightsAt l.weights ls k = ls := by
  intro ls
  induction ls with
  | nil => intro k l hl; cases hl
  | cons a rest ih =>
    intro k l hl
    cases k with
    | zero =>
      have hal : a = l := Option.some.inj hl
      subst hal
      unfold setWeightsAt
      rfl
    | succ k =>
      unfold setWeightsAt
      rw [ih k l hl]

theorem weights_pair_eq {Arr : Type} [Inhabited Arr] {l : KLayer Arr}
    (h : l.weights.length = 2) :
    l.weights = [l.weights.getD 0 default, l.weights.getD 1 default] := by
  match hw : l.weights, h with
  | [a, b], _ => rfl

theorem mkRecord_layer_num [Inhabited Arr] (ab : AbsorbFn Arr) (i : Nat)
    (layer : KLayer Arr) (next : Option (KLayer Arr)) (ss : String) :
    (mkRecord ab i layer next ss).layer_num = i := rfl

theorem mkRecord_label [Inhabited Arr] (ab : AbsorbFn Arr) (i : Nat)
    (layer : KLayer Arr) (next : Option (KLayer Arr)) (ss : String) :
    (mkRecord ab i layer next ss).label = numStr i ++ layer.cls ++ ss := rfl

theorem mkRecord_weights [Inhabited Arr] (ab : AbsorbFn Arr) (i : Nat)
    (layer : KLayer Arr) (next : Option (KLayer Arr)) (ss : String) :
    (mkRecord ab i layer next ss).weights =
      (if layer.cls = "Dense" ∨ layer.cls = "Convolution2D" then
        match next with
        | some nl =>
          if nl.cls = "BatchNormalization" then
            some (ab (layer.weights.getD 0 default) (layer.weights.getD 1 default)
                  (nl.weights.getD 0 default) (nl.weights.getD 1 default)
                  (nl.weights.getD 2 default) (nl.weights.getD 3 default) nl.epsilon)
          else some (layer.weights.getD 0 default, layer.weights.getD 1 default)
        | none => some (layer.weights.getD 0 default, layer.weights.getD 1 default)
      else none) := rfl

theorem foldl_fixed {α β : Type} (f : α → β → α) (a : α) :
    ∀ l : List β, (∀ x ∈ l, f a x = a) → l.foldl f a = a := by
  intro l
  induction l with
  | nil => intro _; rfl
  | cons b t ih =>
    intro h
    rw [List.foldl_cons, h b (List.mem_cons_self b t)]
    exact ih (fun x hx => h x (List.mem_cons_of_mem b hx))

theorem numStr_length_two {k : Nat} (h : k < 100) : (numStr k).length = 2 := by
  have hdata : (numStr k).length = (numStr k).data.length := rfl
  rw [hdata, numStr_data]
  unfold numChars
  by_cases h9 : 9 < k
  · simp only [h9, if_true]
    rw [decCharsN_eq]
    have h10 : ¬k < 10 := by omega
    simp only [h10, if_false]
    rw [List.length_append, decCharsN_eq]
    have hq : k / 10 < 10 := by omega
    simp [hq]
  · simp only [h9, if_false]
    rw [List.length_cons, decCharsN_eq]
    have h10 : k < 10 := by omega
    simp [h10]

/-- Claim C1, counterexample: on the spec §8 scenario model
`[Dense(None,128), BatchNorm, Activation, Dense(None,10)]` the embedded
`extract` emits four Layer Records — one of them for the
batch-normalization layer — labeled `00Dense_128`, `01BatchNormalization_128`,
`02Activation_128`, `03Dense_10`, not the three records `00Dense_128`,
`01Activation_128`, `02Dense_10` the claim demands. -/
theorem claimC1_counterexample :
    (extract bn_layers absorbScalar mC1).map (fun p => p.labels) =
      .ok ["00Dense_128", "01BatchNormalization_128", "02Activation_128", "03Dense_10"] ∧
    (extract bn_layers absorbScalar mC1).map (fun p => p.layers.length) = .ok 4 := by
  constructor <;> rfl

/-- Claim C1 (amended): `extract` emits one Layer Record for every layer of
the model, batch-normalization layers included; the record count equals the
original layer count, and both the `layer_num` values and the
`layer_idx_map` are exactly `0..n-1` in ascending order.  On the spec §8
scenario model it therefore produces four records labeled `00Dense_128`,
`01BatchNormalization_128`, `02Activation_128`, `03Dense_10` (the first
carrying the folded weights). -/
theorem claimC1_amended [Inhabited Arr] {bn : List String} {ab : AbsorbFn Arr}
    {m : KModel Arr} {p : PND Arr} (h : extract bn ab m = .ok p) :
    (p.layers.length = m.layers.length ∧
     p.layers.map (·.layer_num) = List.range m.layers.length ∧
     p.layer_idx_map = List.range m.layers.length) ∧
    (extract bn_layers absorbScalar mC1).map (fun q => q.layers.map (·.label)) =
      .ok ["00Dense_128", "01BatchNormalization_128", "02Activation_128", "03Dense_10"] := by
  obtain ⟨hgo, _, _, hidx⟩ := extract_ok_parts h
  obtain ⟨hlen, _⟩ := extractGo_ok m.layers 0 p.layers hgo
  have hnum := extractGo_layerNum m.layers 0 p.layers hgo
  refine ⟨⟨hlen, ?_, ?_⟩, by rfl⟩
  · rw [hnum]
    exact (List.range_eq_range' _).symm
  · rw [hidx, hnum]
    exact (List.range_eq_range' _).symm

/-- Claim C1, witness: the amended statement instantiated on the scenario
model. -/
theorem claimC1_witness :
    extract bn_layers absorbScalar mC1 = .ok pC1 ∧
    (pC1.layers.length = mC1.layers.length ∧
     pC1.layers.map (·.layer_num) = List.range mC1.layers.length ∧
     pC1.layer_idx_map = List.range mC1.layers.length) := by
  have hx : extract bn_layers absorbScalar mC1 = .ok pC1 := by rfl
  exact ⟨hx, (claimC1_amended hx).1⟩

/-- Claim C2: if layer `k` is immediately followed by a batch-normalization
layer and its type is not on the absorption allow-list, `extract` never
returns a Parsed Network Description — it raises; and when the label step
succeeds on layers `0..k` the raised error is the `NotImplementedError`
structural-precondition failure. -/
theorem claimC2 [Inhabited Arr] {bn : List String} {ab : AbsorbFn Arr}
    {m : KModel Arr} {k : Nat} {l nl : KLayer Arr}
    (hl : m.layers.get? k = some l) (hnl : m.layers.get? (k + 1) = some nl)
    (hbn : nl.cls = "BatchNormalization") (hmem : l.cls ∉ bn) :
    (∀ p, extract bn ab m ≠ .ok p) ∧
    ((∀ k2 l2, k2 ≤ k → m.layers.get? k2 = some l2 →
        ∃ ss, shapeString l2.output_shape = .ok ss) →
      ∃ t, extract bn ab m = .error (.notImpl t)) := by
  constructor
  · intro p hp
    obtain ⟨hgo, _, _, _⟩ := extract_ok_parts hp
    exact extractGo_violation_not_ok m.layers 0 k l nl hl hnl hbn hmem p.layers hgo
  · intro hshape
    obtain ⟨t, ht⟩ := extractGo_violation_notImpl m.layers 0 k l nl hl hnl hbn hmem hshape
    refine ⟨t, ?_⟩
    unfold extract
    rw [ht]

/-- Claim C2, witness: an `Activation` layer followed by batch
normalization under the spec allow-list aborts extraction with the
structural-precondition failure. -/
theorem claimC2_witness :
    (∀ p, extract bn_layers absorbScalar mBadBN ≠ .ok p) ∧
    (∃ t, extract bn_layers absorbScalar mBadBN = .error (.notImpl t)) := by
  have hc := @claimC2 ℚ _ bn_layers absorbScalar mBadBN 0
    (mBadBN.layers.getD 0 default) (mBadBN.layers.getD 1 default)
    rfl rfl rfl (by decide)
  refine ⟨hc.1, hc.2 ?_⟩
  intro k2 l2 hk2 hl2
  have hk0 : k2 = 0 := Nat.le_zero.mp hk2
  subst hk0
  have hl2e : some (mBadBN.layers.getD 0 default) = some l2 := hl2
  cases hl2e
  exact ⟨"_4", rfl⟩

/-- Claim C3: in a successful extraction, a `Dense` or `Convolution2D` layer
followed by batch normalization stores the folded weights
`absorb_bn(W, b, γ, β, μ, σ, ε)` built from its own raw weight pair and the
following layer's four stored parameters and epsilon; one not followed by
batch normalization stores its raw `(weights, biases)` pair; and every other
layer kind stores no `weights` key at all. -/
theorem claimC3 [Inhabited Arr] {bn : List String} {ab : AbsorbFn Arr}
    {m : KModel Arr} {p : PND Arr} (h : extract bn ab m = .ok p)
    {k : Nat} {l : KLayer Arr} {r : LayerRecord Arr}
    (hl : m.layers.get? k = some l) (hr : p.layers.get? k = some r) :
    ((l.cls = "Dense" ∨ l.cls = "Convolution2D") →
      (∀ nl, m.layers.get? (k + 1) = some nl → nl.cls = "BatchNormalization" →
        r.weights = some (ab (l.weights.getD 0 default) (l.weights.getD 1 default)
          (nl.weights.getD 0 default) (nl.weights.getD 1 default)
          (nl.weights.getD 2 default) (nl.weights.getD 3 default) nl.epsilon)) ∧
      ((∀ nl, m.layers.get? (k + 1) = some nl → nl.cls ≠ "BatchNormalization") →
        r.weights = some (l.weights.getD 0 default, l.weights.getD 1 default))) ∧
    (¬(l.cls = "Dense" ∨ l.cls = "Convolution2D") → r.weights = none) := by
  obtain ⟨hgo, _, _, _⟩ := extract_ok_parts h
  obtain ⟨hlen, hpt⟩ := extractGo_ok m.layers 0 p.layers hgo
  have hk : k < m.layers.length := by
    by_contra hk
    rw [List.get?_eq_none.mpr (by omega)] at hl
    cases hl
  obtain ⟨l2, r2, hl2, hr2, hx⟩ := hpt k hk
  have hle : l2 = l := Option.some.inj (hl2.symm.trans hl)
  subst hle
  have hre : r2 = r := Option.some.inj (hr2.symm.trans hr)
  subst hre
  obtain ⟨ss, hss, hcnd, hrec⟩ := extractLayer_ok_elim hx
  subst hrec
  rw [mkRecord_weights]
  constructor
  · intro hcls
    rw [if_pos hcls]
    constructor
    · intro nl hnl hbn
      rw [hnl]
      dsimp only
      rw [if_pos hbn]
    · intro hnotbn
      cases hnx : m.layers.get? (k + 1) with
      | none => rfl
      | some nl =>
        dsimp only
        rw [if_neg (hnotbn nl hnx)]
  · intro hcls
    rw [if_neg hcls]

/-- Claim C3, witness: on the scenario model, the first `Dense` layer
(followed by batch normalization) stores the folded pair, the final `Dense`
layer stores its raw pair, and the `Activation` layer stores no weights. -/
theorem claimC3_witness :
    extract bn_layers absorbScalar mC1 = .ok pC1 ∧
    (pC1.layers.getD 0 default).weights = some (2, 0) ∧
    (pC1.layers.getD 3 default).weights = some (1, 0) ∧
    (pC1.layers.getD 2 default).weights = none := by
  have hx : extract bn_layers absorbScalar mC1 = .ok pC1 := by rfl
  refine ⟨hx, ?_, ?_, ?_⟩
  · have h0 := @claimC3 ℚ _ bn_layers absorbScalar mC1 pC1 hx 0
      (mC1.layers.getD 0 default) (pC1.layers.getD 0 default) rfl rfl
    have hw := (h0.1 (by decide)).1 (mC1.layers.getD 1 default) rfl rfl
    rw [hw]
    norm_num [mC1, absorbScalar]
  · have h3 := @claimC3 ℚ _ bn_layers absorbScalar mC1 pC1 hx 3
      (mC1.layers.getD 3 default) (pC1.layers.getD 3 default) rfl rfl
    have hw := (h3.1 (by decide)).2 (fun nl hnl => by cases hnl)
    rw [hw]
    norm_num [mC1]
  · have h2 := @claimC3 ℚ _ bn_layers absorbScalar mC1 pC1 hx 2
      (mC1.layers.getD 2 default) (pC1.layers.getD 2 default) rfl rfl
    exact h2.2 (by decide)

/-- Claim C4: the spec-modelled batch-norm folding is exact — for every
affine layer `(W, b)`, batch-norm parameters `γ, β, μ`, running standard
deviation `s` tied to the running variance `v` by `s² = v`, and stability
constant `e` with nonzero denominator, applying the folded affine transform
to any input sample equals applying batch normalization to the affine
output. -/
theorem claimC4 {m n : Nat} (W : Fin m → Fin n → ℚ) (b g bt mu s v : Fin m → ℚ)
    (e : ℚ) (x : Fin n → ℚ)
    (hden : ∀ j, s j + e ≠ 0) (hvar : ∀ j, s j * s j = v j) :
    affineApply (absorb_bn_vec W b g bt mu s e).1 (absorb_bn_vec W b g bt mu s e).2 x
      = batchnormApply g bt mu s e (affineApply W b x) := by
  funext j
  unfold affineApply absorb_bn_vec batchnormApply
  dsimp only
  have hsum : (∑ i, g j * W j i / (s j + e) * x i)
      = (g j * ∑ i, W j i * x i) / (s j + e) := by
    rw [Finset.mul_sum, Finset.sum_div]
    refine Finset.sum_congr rfl ?_
    intro i _
    ring
  rw [hsum]
  have hd := hden j
  field_simp
  ring

/-- Claim C4, witness: the folding identity at a concrete one-channel layer
with `W = 3`, `b = 5`, `γ = 2`, `β = 7`, `μ = 1`, `σ = 0`, `σ² = 0`,
`ε = 1`, input `x = 4`. -/
theorem claimC4_witness :
    (∀ j : Fin 1, (fun _ : Fin 1 => (0 : ℚ)) j + 1 ≠ 0) ∧
    affineApply
        (absorb_bn_vec (fun _ _ : Fin 1 => (3 : ℚ)) (fun _ => 5) (fun _ => 2)
          (fun _ => 7) (fun _ => 1) (fun _ => 0) 1).1
        (absorb_bn_vec (fun _ _ : Fin 1 => (3 : ℚ)) (fun _ => 5) (fun _ => 2)
          (fun _ => 7) (fun _ => 1) (fun _ => 0) 1).2 (fun _ => 4)
      = batchnormApply (fun _ => 2) (fun _ => 7) (fun _ => 1) (fun _ => 0) 1
          (affineApply (fun _ _ : Fin 1 => (3 : ℚ)) (fun _ => 5) (fun _ => 4)) := by
  constructor
  · intro j
    simp
  · exact claimC4 (fun _ _ : Fin 1 => (3 : ℚ)) (fun _ => 5) (fun _ => 2) (fun _ => 7)
      (fun _ => 1) (fun _ => 0) (fun _ => 0) 1 (fun _ => 4)
      (fun j => by simp) (fun j => by simp)

/-- Claim C5: in a successful extraction, a layer with a rank-2 output shape
gets the label `<two-digit index><type>_<N>` and a layer with a rank-4
output shape gets the label `<two-digit index><type>_<C>x<H>x<W>` built from
dimensions 1..3; the index prefix has exactly two characters whenever the
index is below 100. -/
theorem claimC5 [Inhabited Arr] {bn : List String} {ab : AbsorbFn Arr}
    {m : KModel Arr} {p : PND Arr} (h : extract bn ab m = .ok p)
    {k : Nat} {l : KLayer Arr} {r : LayerRecord Arr}
    (hl : m.layers.get? k = some l) (hr : p.layers.get? k = some r) :
    (k < 100 → (numStr k).length = 2) ∧
    (∀ a b2, l.output_shape = [a, b2] →
      r.label = numStr k ++ l.cls ++ ("_" ++ fmtDim b2)) ∧
    (∀ a b2 c d, l.output_shape = [a, b2, c, d] →
      r.label = numStr k ++ l.cls ++
        ("_" ++ fmtDim b2 ++ "x" ++ fmtDim c ++ "x" ++ fmtDim d)) := by
  obtain ⟨hgo, _, _, _⟩ := extract_ok_parts h
  obtain ⟨hlen, hpt⟩ := extractGo_ok m.layers 0 p.layers hgo
  have hk : k < m.layers.length := by
    by_contra hk
    rw [List.get?_eq_none.mpr (by omega)] at hl
    cases hl
  obtain ⟨l2, r2, hl2, hr2, hx⟩ := hpt k hk
  have hle : l = l2 := Option.some.inj (hl.symm.trans hl2)
  subst hle
  have hre : r = r2 := Option.some.inj (hr.symm.trans hr2)
  subst hre
  obtain ⟨ss, hss, _, hrec⟩ := extractLayer_ok_elim hx
  subst hrec
  refine ⟨fun hk100 => numStr_length_two hk100, ?_, ?_⟩
  · intro a b2 hos
    rw [mkRecord_label]
    have hcomp : shapeString l.output_shape = .ok ("_" ++ fmtDim b2) := by
      rw [hos]; rfl
    have hsseq : ss = "_" ++ fmtDim b2 := Except.ok.inj (hss.symm.trans hcomp)
    rw [hsseq, Nat.zero_add]
  · intro a b2 c d hos
    rw [mkRecord_label]
    have hcomp : shapeString l.output_shape =
        .ok ("_" ++ fmtDim b2 ++ "x" ++ fmtDim c ++ "x" ++ fmtDim d) := by
      rw [hos]; rfl
    have hsseq : ss = "_" ++ fmtDim b2 ++ "x" ++ fmtDim c ++ "x" ++ fmtDim d :=
      Except.ok.inj (hss.symm.trans hcomp)
    rw [hsseq, Nat.zero_add]

/-- Claim C5, witness: the convolution layer with `output_shape =
(None, 16, 8, 8)` receives the label `00Convolution2D_16x8x8`, i.e. the
shape suffix `_16x8x8`. -/
theorem claimC5_witness :
    extract bn_layers absorbScalar mConv = .ok pConv ∧
    (pConv.layers.getD 0 default).label = "00Convolution2D_16x8x8" := by
  have hx : extract bn_layers absorbScalar mConv = .ok pConv := by rfl
  refine ⟨hx, ?_⟩
  have h0 := @claimC5 ℚ _ bn_layers absorbScalar mConv pConv hx 0
    (mConv.layers.getD 0 default) (pConv.layers.getD 0 default) rfl rfl
  have hlab := h0.2.2 none (some 16) (some 8) (some 8) rfl
  rw [hlab]
  rfl

/-- Claim C6: in a successful extraction all labels are pairwise distinct,
provided no layer type name starts with a decimal digit (class names never
do). -/
theorem claimC6 [Inhabited Arr] {bn : List String} {ab : AbsorbFn Arr}
    {m : KModel Arr} {p : PND Arr} (h : extract bn ab m = .ok p)
    (hcls : ∀ l ∈ m.layers, headNotDigit l.cls.data) : p.labels.Nodup := by
  obtain ⟨hgo, _, hlab, _⟩ := extract_ok_parts h
  obtain ⟨hlen, hpt⟩ := extractGo_ok m.layers 0 p.layers hgo
  rw [hlab, List.nodup_iff_injective_get]
  intro a b hab
  have ha : a.1 < m.layers.length := lt_of_lt_of_eq a.2 (by simp [hlen])
  have hb : b.1 < m.layers.length := lt_of_lt_of_eq b.2 (by simp [hlen])
  obtain ⟨la, ra, hla, hra, hxa⟩ := hpt a.1 ha
  obtain ⟨lb, rb, hlb, hrb, hxb⟩ := hpt b.1 hb
  obtain ⟨ssa, hssa, _, hreca⟩ := extractLayer_ok_elim hxa
  obtain ⟨ssb, hssb, _, hrecb⟩ := extractLayer_ok_elim hxb
  have hga : (p.layers.map (·.label)).get a = ra.label := by
    have h1 : (p.layers.map (·.label)).get? a.1 =
        some ((p.layers.map (·.label)).get a) := List.get?_eq_get a.2
    have h2 : (p.layers.map (·.label)).get? a.1 = (p.layers.get? a.1).map (·.label) :=
      List.get?_map _ _ _
    rw [hra] at h2
    exact (Option.some.inj (h1.symm.trans h2))
  have hgb : (p.layers.map (·.label)).get b = rb.label := by
    have h1 : (p.layers.map (·.label)).get? b.1 =
        some ((p.layers.map (·.label)).get b) := List.get?_eq_get b.2
    have h2 : (p.layers.map (·.label)).get? b.1 = (p.layers.get? b.1).map (·.label) :=
      List.get?_map _ _ _
    rw [hrb] at h2
    exact (Option.some.inj (h1.symm.trans h2))
  rw [hga, hgb, hreca, hrecb, mkRecord_label, mkRecord_label] at hab
  have hnum : 0 + a.1 = 0 + b.1 :=
    label_num_inj (hcls la (List.get?_mem hla)) (hcls lb (List.get?_mem hlb))
      (shapeString_ok_head hssa) (shapeString_ok_head hssb) hab
  exact Fin.ext (by omega)

/-- Claim C6, witness: the labels of the scenario extraction are pairwise
distinct. -/
theorem claimC6_witness :
    extract bn_layers absorbScalar mC1 = .ok pC1 ∧ pC1.labels.Nodup := by
  have hx : extract bn_layers absorbScalar mC1 = .ok pC1 := by rfl
  refine ⟨hx, claimC6 hx ?_⟩
  intro l hlm
  fin_cases hlm <;> intro c hc <;> cases hc <;> decide

/-- Claim C7, counterexample: on the scenario model the round trip is not
idempotent — the first extraction stores the folded weights, writing them
back and re-extracting folds the batch-normalization parameters a second
time, so the second Parsed Network Description differs from the first
(weights `(4, 0)` instead of `(2, 0)` in the first record). -/
theorem claimC7_counterexample :
    extract bn_layers absorbScalar mC1 = .ok pC1 ∧
    extract bn_layers absorbScalar (writeBack mC1 pC1) = .ok pC1back ∧
    pC1back ≠ pC1 := by
  refine ⟨by rfl, by rfl, ?_⟩
  intro heq
  have hw := congrArg (fun q => (q.layers.getD 0 default).weights) heq
  have h2 : (pC1back.layers.getD 0 default).weights =
      some (absorbScalar (absorbScalar 1 0 2 0 0 0 1).1
        (absorbScalar 1 0 2 0 0 0 1).2 2 0 0 0 1) := rfl
  have h1 : (pC1.layers.getD 0 default).weights = some (absorbScalar 1 0 2 0 0 0 1) := rfl
  simp only at hw
  rw [h1, h2] at hw
  simp [absorbScalar] at hw

/-- Claim C7 (amended): the round trip is idempotent for models in which no
layer is immediately followed by a batch-normalization layer (and affine
layers carry the usual two-element weight list): writing back the reported
weights leaves the model unchanged, so re-extraction returns the same
Parsed Network Description.  With batch normalization present the reported
weights are the folded ones and writing them back alters the model, as the
counterexample shows. -/
theorem claimC7_amended [Inhabited Arr] {bn : List String} {ab : AbsorbFn Arr}
    {m : KModel Arr} {p : PND Arr} (h : extract bn ab m = .ok p)
    (hnobn : ∀ k nl, m.layers.get? (k + 1) = some nl → nl.cls ≠ "BatchNormalization")
    (hw2 : ∀ l ∈ m.layers, (l.cls = "Dense" ∨ l.cls = "Convolution2D") →
      l.weights.length = 2) :
    writeBack m p = m ∧ extract bn ab (writeBack m p) = .ok p := by
  have hwb : writeBack m p = m := by
    obtain ⟨hgo, _, _, _⟩ := extract_ok_parts h
    obtain ⟨hlen, hpt⟩ := extractGo_ok m.layers 0 p.layers hgo
    unfold writeBack
    apply foldl_fixed
    intro r hrmem
    obtain ⟨k, hk⟩ := List.mem_iff_get?.mp hrmem
    have hklen : k < p.layers.length := by
      by_contra hbig
      rw [List.get?_eq_none.mpr (by omega)] at hk
      cases hk
    rw [hlen] at hklen
    obtain ⟨l, r2, hl2, hr2, hx⟩ := hpt k hklen
    have hre : r = r2 := Option.some.inj (hk.symm.trans hr2)
    obtain ⟨ss, hss, _, hrec⟩ := extractLayer_ok_elim hx
    rw [hre, hrec]
    by_cases hcls : l.cls = "Dense" ∨ l.cls = "Convolution2D"
    · have hwts : (mkRecord ab (0 + k) l (m.layers.get? (k + 1)) ss).weights =
          some (l.weights.getD 0 default, l.weights.getD 1 default) := by
        rw [mkRecord_weights, if_pos hcls]
        cases hnx : m.layers.get? (k + 1) with
        | none => rfl
        | some nl =>
          dsimp only
          rw [if_neg (hnobn k nl hnx)]
      rw [hwts]
      dsimp only
      rw [mkRecord_layer_num]
      unfold set_layer_params
      rw [← weights_pair_eq (hw2 l (List.get?_mem hl2) hcls), Nat.zero_add,
        setWeightsAt_self m.layers k l hl2]
    · have hwts : (mkRecord ab (0 + k) l (m.layers.get? (k + 1)) ss).weights = none := by
        rw [mkRecord_weights, if_neg hcls]
      rw [hwts]
  exact ⟨hwb, by rw [hwb]; exact h⟩

/-- Claim C7, witness: on a Dense-then-Activation model without batch
normalization the round trip reproduces the same Parsed Network
Description. -/
theorem claimC7_witness :
    extract bn_layers absorbScalar mPlain = .ok pPlain ∧
    writeBack mPlain pPlain = mPlain ∧
    extract bn_layers absorbScalar (writeBack mPlain pPlain) = .ok pPlain := by
  have hx : extract bn_layers absorbScalar mPlain = .ok pPlain := by rfl
  have hnobn : ∀ k nl, mPlain.layers.get? (k + 1) = some nl →
      nl.cls ≠ "BatchNormalization" := by
    intro k nl hn
    cases k with
    | zero =>
      have hn2 : some (mPlain.layers.getD 1 default) = some nl := hn
      cases hn2
      decide
    | succ k => cases hn
  have hw2 : ∀ l ∈ mPlain.layers, (l.cls = "Dense" ∨ l.cls = "Convolution2D") →
      l.weights.length = 2 := by
    intro l hlm hcls
    fin_cases hlm
    · rfl
    · exact absurd hcls (by decide)
  have hres := claimC7_amended hx hnobn hw2
  exact ⟨hx, hres.1, hres.2⟩

/-- Claim C8: with a non-script configuration, `load_ann` reads the
architecture from `<path>/<filename>.json`, loads the weights from
`<path>/<filename>.h5`, recompiles with loss `categorical_crossentropy` and
optimizer `sgd`, and returns the model handle together with its bound
`evaluate`; an error in any step propagates unchanged and nothing partial
is returned. -/
theorem claimC8 {Model : Type} (env : LoaderEnv Model) (cfg : Config)
    (filename : String) (po : Option String) (hds : cfg.dataset ≠ "caltech101") :
    (∀ e, env.readFile (pathJoin (po.getD cfg.path) (filename ++ ".json")) = .error e →
      load_ann env cfg filename po = .error e) ∧
    (∀ txt e, env.readFile (pathJoin (po.getD cfg.path) (filename ++ ".json")) = .ok txt →
      env.model_from_json txt = .error e →
      load_ann env cfg filename po = .error e) ∧
    (∀ txt mdl e,
      env.readFile (pathJoin (po.getD cfg.path) (filename ++ ".json")) = .ok txt →
      env.model_from_json txt = .ok mdl →
      env.load_weights mdl (pathJoin (po.getD cfg.path) (filename ++ ".h5")) = .error e →
      load_ann env cfg filename po = .error e) ∧
    (∀ txt mdl mdl2,
      env.readFile (pathJoin (po.getD cfg.path) (filename ++ ".json")) = .ok txt →
      env.model_from_json txt = .ok mdl →
      env.load_weights mdl (pathJoin (po.getD cfg.path) (filename ++ ".h5")) = .ok mdl2 →
      load_ann env cfg filename po =
        .ok { model := env.compile mdl2 "categorical_crossentropy" "sgd" ["accuracy"],
              val_fn := env.compile mdl2 "categorical_crossentropy" "sgd" ["accuracy"] }) := by
  refine ⟨?_, ?_, ?_, ?_⟩
  · intro e hrf
    unfold load_ann
    dsimp only
    rw [if_neg hds, hrf]
  · intro txt e hrf hjs
    unfold load_ann
    dsimp only
    rw [if_neg hds, hrf]
    dsimp only
    rw [hjs]
  · intro txt mdl e hrf hjs hlw
    unfold load_ann
    dsimp only
    rw [if_neg hds, hrf]
    dsimp only
    rw [hjs]
    dsimp only
    rw [hlw]
  · intro txt mdl mdl2 hrf hjs hlw
    unfold load_ann
    dsimp only
    rw [if_neg hds, hrf]
    dsimp only
    rw [hjs]
    dsimp only
    rw [hlw]

/-- Claim C8, witness: the disk path on a concrete all-succeeding runtime
produces the compiled model (`(1 + 10) * 100`) and its bound evaluator. -/
theorem claimC8_witness :
    cfgDisk.dataset ≠ "caltech101" ∧
    load_ann envOkNat cfgDisk "net" none = .ok { model := 1100, val_fn := 1100 } := by
  constructor
  · decide
  · exact (claimC8 envOkNat cfgDisk "net" none (by decide)).2.2.2 "arch" 1 11 rfl rfl rfl

/-- Claim C9: the label step reads output-shape entries 1, 2 and 3 whenever
the rank is not 2, so a layer with a rank-3 shape (or rank below 2) makes the
shape-suffix computation raise the out-of-range index error, `extract`
returns no description, and — when all earlier layers process fine — the
overall result is that index error. -/
theorem claimC9 [Inhabited Arr] {bn : List String} {ab : AbsorbFn Arr}
    {m : KModel Arr} {k : Nat} {l : KLayer Arr}
    (hl : m.layers.get? k = some l)
    (hbad : l.output_shape.length = 3 ∨ l.output_shape.length < 2) :
    shapeString l.output_shape = .error .indexErr ∧
    (∀ p, extract bn ab m ≠ .ok p) ∧
    ((∀ k2 l2, k2 < k → m.layers.get? k2 = some l2 →
        ∃ r, extractLayer bn ab k2 l2 (m.layers.get? (k2 + 1)) = .ok r) →
      extract bn ab m = .error .indexErr) := by
  refine ⟨shapeString_bad hbad, ?_, ?_⟩
  · intro p hp
    obtain ⟨hgo, _, _, _⟩ := extract_ok_parts hp
    exact extractGo_badshape_not_ok m.layers 0 k l hl hbad p.layers hgo
  · intro hearlier
    have hgo : extractGo bn ab 0 m.layers = .error .indexErr := by
      apply extractGo_badshape_indexErr m.layers 0 k l hl hbad
      intro k2 l2 hk2 hl2
      obtain ⟨r, hr⟩ := hearlier k2 l2 hk2 hl2
      exact ⟨r, by rw [Nat.zero_add]; exact hr⟩
    unfold extract
    rw [hgo]

/-- Claim C9, witness: a single layer with `output_shape=(None,4,4)` makes
`extract` fail with the index error. -/
theorem claimC9_witness :
    shapeString (mRank3.layers.getD 0 default).output_shape = .error .indexErr ∧
    extract bn_layers absorbScalar mRank3 = .error .indexErr := by
  have hc := @claimC9 ℚ _ bn_layers absorbScalar mRank3 0
    (mRank3.layers.getD 0 default) rfl (by decide)
  exact ⟨hc.1, hc.2.2 (fun k2 l2 hk2 => absurd hk2 (by omega))⟩

/-- Claim C10: with the script configuration (`dataset = 'caltech101'`),
`load_ann` builds the model by the script entry point but still loads the
`.h5` weights — whose failure propagates, so both branches require the
weights file — and recompiles with the fixed loss `categorical_crossentropy`
and optimizer `sgd`, overwriting the script-initialized parameters. -/
theorem claimC10 {Model : Type} (env : LoaderEnv Model) (cfg : Config)
    (filename : String) (po : Option String) (hds : cfg.dataset = "caltech101") :
    (∀ e, env.build_network = .error e → load_ann env cfg filename po = .error e) ∧
    (∀ mdl e, env.build_network = .ok mdl →
      env.load_weights mdl (pathJoin (po.getD cfg.path) (filename ++ ".h5")) = .error e →
      load_ann env cfg filename po = .error e) ∧
    (∀ mdl mdl2, env.build_network = .ok mdl →
      env.load_weights mdl (pathJoin (po.getD cfg.path) (filename ++ ".h5")) = .ok mdl2 →
      load_ann env cfg filename po =
        .ok { model := env.compile mdl2 "categorical_crossentropy" "sgd" ["accuracy"],
              val_fn := env.compile mdl2 "categorical_crossentropy" "sgd" ["accuracy"] }) := by
  refine ⟨?_, ?_, ?_⟩
  · intro e hb
    unfold load_ann model_from_py
    dsimp only
    rw [if_pos hds, hb]
  · intro mdl e hb hlw
    unfold load_ann model_from_py
    dsimp only
    rw [if_pos hds, hb]
    dsimp only
    rw [hlw]
  · intro mdl mdl2 hb hlw
    unfold load_ann model_from_py
    dsimp only
    rw [if_pos hds, hb]
    dsimp only
    rw [hlw]

/-- Claim C10, witness: the script path on the concrete runtime still goes
through weight loading (`7 + 10`) and compilation (`* 100`). -/
theorem claimC10_witness :
    cfgScript.dataset = "caltech101" ∧
    load_ann envOkNat cfgScript "net" none = .ok { model := 1700, val_fn := 1700 } := by
  constructor
  · rfl
  · exact (claimC10 envOkNat cfgScript "net" none rfl).2.2 7 17 rfl rfl

end KerasInput
